import Mathlib

/-!
Verification of the Dataset Iteration Engine of the iterator-mcp repository.

The embedding follows `src/index.ts` (the `DatasetProcessor` class with
`resetState`, the readline-based `loadDataset`, and the jq fallback
expression engine).  JavaScript numbers appearing as cursors, indices and
literal values are modelled as integers (`Int`); JSON documents as an
inductive `Json` tree; the JavaScript value `undefined` as `none` in
`Option Json`.  File reads are modelled by passing the read outcome
(`Option String`, `none` = unreadable) as an argument; the external jq
engine by passing its outcome as an argument.
-/

namespace IteratorMcp

/-- JSON values.  JavaScript numbers are modelled as integers: every
numeric value appearing in the verified claims is integral, and
floating-point behaviour is outside the scope of the embedding. -/
inductive Json where
  | null : Json
  | bool : Bool → Json
  | num : Int → Json
  | str : String → Json
  | arr : List Json → Json
  | obj : List (String × Json) → Json
deriving Repr

/-- `RecordData` as returned by `getNextRecord` (src/index.ts).
`record` is `Option Json` because a JavaScript array read out of bounds
yields `undefined` (`none`); in reachable states it is always `some`. -/
structure RecordData where
  record_number : Int
  total_records : Nat
  record : Option Json
  progress : String
deriving Repr

/-- `ProcessingResult` (src/index.ts): `record_index` is
`currentIndex - 1` at save time, which can be negative. -/
structure ProcessingResult where
  record_index : Int
  result : String
deriving Repr, DecidableEq

/-- The mutable fields of the `DatasetProcessor` class (src/index.ts). -/
structure DatasetProcessor where
  currentDataset : Option String
  currentIndex : Int
  records : List Json
  processingResults : List ProcessingResult
deriving Repr

/-- The field initializers of the class: no dataset, cursor 0, no records,
no results. -/
def initState : DatasetProcessor :=
  { currentDataset := none, currentIndex := 0, records := [], processingResults := [] }

/-- JavaScript array indexing `l[i]` for an integer `i`: `undefined`
(`none`) when out of bounds or negative. -/
def listGetJS (l : List Json) (i : Int) : Option Json :=
  if i < 0 then none else l.get? i.toNat

/-! ### Computable string helpers

The JavaScript string operations used by the engine (`split`, `trim`,
`startsWith`, `endsWith`, `slice`) as structurally recursive functions
over the character data, so that every definition evaluates. -/

/-- `String.prototype.split` with a one-character separator (the only
separators the engine uses are `\n`, `|` and `.`). -/
def splitOnCharAux (sep : Char) : List Char → List Char → List (List Char)
  | [], acc => [acc.reverse]
  | c :: rest, acc =>
    if c = sep then acc.reverse :: splitOnCharAux sep rest []
    else splitOnCharAux sep rest (c :: acc)

def splitOnChar (sep : Char) (s : String) : List String :=
  (splitOnCharAux sep s.data []).map String.mk

/-- `String.prototype.trim` (ASCII whitespace). -/
def jsTrim (s : String) : String :=
  String.mk (((s.data.dropWhile Char.isWhitespace).reverse.dropWhile Char.isWhitespace).reverse)

def strStartsWith (s pre : String) : Bool :=
  pre.data.isPrefixOf s.data

def strEndsWith (s suf : String) : Bool :=
  suf.data.reverse.isPrefixOf s.data.reverse

/-- `slice(n)`: drop the first `n` characters. -/
def strDrop (s : String) (n : Nat) : String :=
  String.mk (s.data.drop n)

/-- `slice(_, -n)`: drop the last `n` characters. -/
def strDropRight (s : String) (n : Nat) : String :=
  String.mk (s.data.take (s.data.length - n))

/-- The progress template literal of `getNextRecord`. -/
def progressString (n : Int) (total : Nat) : String :=
  s!"{n}/{total}"

/-- `getNextRecord` (src/index.ts): returns `null` when the cursor has
reached the record count, otherwise the record view, incrementing the
cursor. -/
def getNextRecord (s : DatasetProcessor) : Option RecordData × DatasetProcessor :=
  if s.currentIndex ≥ s.records.length then
    (none, s)
  else
    let record := listGetJS s.records s.currentIndex
    let newIndex := s.currentIndex + 1
    let total := s.records.length
    ( some { record_number := newIndex, total_records := total,
             record := record, progress := progressString newIndex total },
      { s with currentIndex := newIndex } )

/-- `saveResult` (src/index.ts): appends `(currentIndex - 1, result)`. -/
def saveResult (s : DatasetProcessor) (result : String) : DatasetProcessor :=
  { s with processingResults :=
      s.processingResults ++ [{ record_index := s.currentIndex - 1, result := result }] }

/-- The object returned by `getProcessingStatus` (src/index.ts). -/
structure Status where
  dataset : Option String
  current_record : Int
  total_records : Nat
  completed : Nat
  remaining : Int
deriving Repr

/-- `getProcessingStatus` (src/index.ts). -/
def getProcessingStatus (s : DatasetProcessor) : Status :=
  { dataset := s.currentDataset,
    current_record := s.currentIndex,
    total_records := s.records.length,
    completed := s.processingResults.length,
    remaining := (s.records.length : Int) - s.currentIndex }

/-- `hasMoreRecords` (src/index.ts). -/
def hasMoreRecords (s : DatasetProcessor) : Bool :=
  s.currentIndex < s.records.length

/-- `resetToStart` (src/index.ts). -/
def resetToStart (s : DatasetProcessor) : DatasetProcessor :=
  { s with currentIndex := 0 }

/-- `jumpToRecord` (src/index.ts): in-range check, then either sets the
cursor and returns `true` or leaves the state alone and returns `false`. -/
def jumpToRecord (s : DatasetProcessor) (index : Int) : Bool × DatasetProcessor :=
  if index ≥ 0 ∧ index < s.records.length then
    (true, { s with currentIndex := index })
  else
    (false, s)

/-- `exportResults` (src/index.ts): serializes `processingResults` and
writes it out; the engine state is untouched.  The written array is
modelled as the list of entries, in order. -/
def exportResults (s : DatasetProcessor) : List ProcessingResult × DatasetProcessor :=
  (s.processingResults, s)

/-- `resetState` (src/index.ts): commits a successfully loaded dataset. -/
def resetState (s : DatasetProcessor) (filePath : String) (records : List Json) :
    DatasetProcessor :=
  { s with records := records, currentIndex := 0,
           currentDataset := some filePath, processingResults := [] }

/-! ### A model of `JSON.parse`

`loadDataset` parses each line with the JavaScript built-in `JSON.parse`.
The model below is a standard JSON recursive-descent parser restricted to
integral numbers (floating-point literals are out of the embedding's
scope) and to the simple string escapes; within that fragment it accepts
exactly the JSON grammar, and it rejects everything outside it. -/

/-- The whitespace accepted by the JSON grammar. -/
def jsonWs (c : Char) : Bool :=
  c = ' ' ∨ c = '\t' ∨ c = '\n' ∨ c = '\r'

def lbrace : Char := Char.ofNat 123

def rbrace : Char := Char.ofNat 125

def dquote : Char := Char.ofNat 34

def skipWs (cs : List Char) : List Char :=
  cs.dropWhile jsonWs

/-- JSON string escapes (`\uXXXX` is not modelled). -/
def parseEscape (c : Char) : Option Char :=
  if c = dquote then some dquote
  else if c = '\\' then some '\\'
  else if c = '/' then some '/'
  else if c = 'n' then some '\n'
  else if c = 't' then some '\t'
  else if c = 'r' then some '\r'
  else if c = 'b' then some (Char.ofNat 8)
  else if c = 'f' then some (Char.ofNat 12)
  else none

/-- Body of a JSON string, after the opening quote. -/
def parseStringBody (cs : List Char) : Option (List Char × List Char) :=
  match cs with
  | [] => none
  | c :: rest =>
    if c = dquote then some ([], rest)
    else if c = '\\' then
      match rest with
      | [] => none
      | e :: rest2 =>
        match parseEscape e, parseStringBody rest2 with
        | some ec, some (tail, rem) => some (ec :: tail, rem)
        | _, _ => none
    else
      match parseStringBody rest with
      | some (tail, rem) => some (c :: tail, rem)
      | none => none

def natFromDigits (ds : List Char) : Nat :=
  ds.foldl (fun n c => n * 10 + (c.toNat - 48)) 0

/-- A JSON number restricted to integers: optional minus sign, digits
without a superfluous leading zero, not followed by a fraction or
exponent marker. -/
def parseNum (cs : List Char) : Option (Json × List Char) :=
  let (neg, cs1) :=
    match cs with
    | '-' :: rest => (true, rest)
    | _ => (false, cs)
  let digits := cs1.takeWhile Char.isDigit
  let rest := cs1.dropWhile Char.isDigit
  if digits.isEmpty then none
  else if digits.length > 1 ∧ digits.head? = some '0' then none
  else
    match rest with
    | c :: _ =>
      if c = '.' ∨ c = 'e' ∨ c = 'E' then none
      else some (.num (if neg then -(natFromDigits digits : Int) else (natFromDigits digits : Int)), rest)
    | [] => some (.num (if neg then -(natFromDigits digits : Int) else (natFromDigits digits : Int)), rest)

mutual

def parseVal : Nat → List Char → Option (Json × List Char)
  | 0, _ => none
  | fuel + 1, cs =>
    match skipWs cs with
    | 'n' :: 'u' :: 'l' :: 'l' :: rest => some (.null, rest)
    | 't' :: 'r' :: 'u' :: 'e' :: rest => some (.bool true, rest)
    | 'f' :: 'a' :: 'l' :: 's' :: 'e' :: rest => some (.bool false, rest)
    | c :: rest =>
      if c = dquote then
        match parseStringBody rest with
        | some (body, rem) => some (.str (String.mk body), rem)
        | none => none
      else if c = '[' then
        match skipWs rest with
        | c2 :: rest2 =>
          if c2 = ']' then some (.arr [], rest2)
          else
            match parseArrItems fuel (skipWs rest) with
            | some (l, rem) => some (.arr l, rem)
            | none => none
        | [] => none
      else if c = lbrace then
        match skipWs rest with
        | c2 :: rest2 =>
          if c2 = rbrace then some (.obj [], rest2)
          else
            match parseObjItems fuel (skipWs rest) with
            | some (l, rem) => some (.obj l, rem)
            | none => none
        | [] => none
      else parseNum (c :: rest)
    | [] => none

def parseArrItems : Nat → List Char → Option (List Json × List Char)
  | 0, _ => none
  | fuel + 1, cs =>
    match parseVal fuel cs with
    | none => none
    | some (v, rest) =>
      match skipWs rest with
      | ',' :: rest2 =>
        match parseArrItems fuel rest2 with
        | some (vs, rem) => some (v :: vs, rem)
        | none => none
      | c :: rest2 => if c = ']' then some ([v], rest2) else none
      | [] => none

def parseObjItems : Nat → List Char → Option (List (String × Json) × List Char)
  | 0, _ => none
  | fuel + 1, cs =>
    match skipWs cs with
    | c :: rest =>
      if c = dquote then
        match parseStringBody rest with
        | none => none
        | some (key, rest2) =>
          match skipWs rest2 with
          | ':' :: rest3 =>
            match parseVal fuel rest3 with
            | none => none
            | some (v, rest4) =>
              match skipWs rest4 with
              | ',' :: rest5 =>
                match parseObjItems fuel rest5 with
                | some (kvs, rem) => some ((String.mk key, v) :: kvs, rem)
                | none => none
              | c2 :: rest5 => if c2 = rbrace then some ([(String.mk key, v)], rest5) else none
              | [] => none
          | _ => none
      else none
    | [] => none

end

/-- The model of `JSON.parse`: parse one value, allow trailing JSON
whitespace, reject any other trailing text. -/
def jsonParse (s : String) : Option Json :=
  let cs := s.toList
  match parseVal (2 * cs.length + 2) cs with
  | some (v, rest) => if (skipWs rest).isEmpty then some v else none
  | none => none

/-! ### The load operations -/

/-- The line-splitting, blank filtering and per-line parse of
`loadDataset` (src/index.ts): readline yields the lines; blank lines
(after trim) are dropped; lines that fail `JSON.parse` are skipped with
only a warning. -/
def parseLines (content : String) : List Json :=
  ((splitOnChar '\n' content).filter (fun l => jsTrim l ≠ "")).filterMap jsonParse

/-- `loadDataset` (src/index.ts).  The read outcome of `filePath` is the
argument `content` (`none`: the source is unreadable and the operation
fails with a dataset-load error).  Returns the operation outcome (count
or error) together with the state after the call. -/
def loadDataset (s : DatasetProcessor) (filePath : String) (content : Option String) :
    Except String Nat × DatasetProcessor :=
  match content with
  | none => (.error s!"Failed to load dataset from {filePath}", s)
  | some c =>
    let newRecords := parseLines c
    (.ok newRecords.length, resetState s filePath newRecords)

/-! ### The fallback expression engine (src/index.ts)

`resolveJsonPath`, `applyPipelineStage`, `evaluateSelectCondition`,
`parseLiteral` and `applySimpleExpression`, with JavaScript property
access and the strict-equality operator modelled on `Json` values.
Prototype-chain properties of plain objects are not modelled: property
membership on an object is membership among its own (JSON-parsed) keys. -/

/-- Errors thrown by the walk in `resolveJsonPath`: the explicit
`Path segment not found in JSON data` error, or the `TypeError` that the
JavaScript `in` operator raises when its right operand is a primitive. -/
inductive PathError where
  | notFound : String → PathError
  | typeError : String → PathError
deriving Repr, DecidableEq

/-- Errors thrown by the fallback expression engine. -/
inductive ExprError where
  | unsupportedExpression : String → ExprError
  | pathError : PathError → ExprError
  | arrayRequired : ExprError
  | unsupportedStage : String → ExprError
  | unsupportedCondition : String → ExprError
  | unsupportedLiteral : String → ExprError
deriving Repr, DecidableEq

/-- A canonical JavaScript array-index string: digits only, no
superfluous leading zero. -/
def arrIndex (s : String) : Option Nat :=
  let cs := s.toList
  if cs ≠ [] ∧ cs.all Char.isDigit ∧ (cs.length = 1 ∨ cs.head? ≠ some '0') then
    some (natFromDigits cs)
  else none

/-- The string-keyed members every plain object inherits from
`Object.prototype` in the host runtime.  The JavaScript `in` operator
finds these on any object even though they are not own keys; the list
is assumed to cover every such inherited name. -/
def objectProtoProps : List String :=
  ["constructor", "hasOwnProperty", "isPrototypeOf", "propertyIsEnumerable",
   "toLocaleString", "toString", "valueOf",
   "__defineGetter__", "__defineSetter__", "__lookupGetter__", "__lookupSetter__",
   "__proto__"]

/-- The string-keyed members arrays inherit from `Array.prototype` and,
through it, `Object.prototype`; a superset of `objectProtoProps` by
construction.  `length` is an own property and is handled directly. -/
def arrayProtoProps : List String :=
  ["at", "concat", "copyWithin", "entries", "every", "fill", "filter", "find",
   "findIndex", "findLast", "findLastIndex", "flat", "flatMap", "forEach",
   "includes", "indexOf", "join", "keys", "lastIndexOf", "map", "pop", "push",
   "reduce", "reduceRight", "reverse", "shift", "slice", "some", "sort",
   "splice", "toReversed", "toSorted", "toSpliced", "unshift", "values",
   "with"] ++ objectProtoProps

/-- The JavaScript `in` operator on a `Json` value, restricted to own
keys: `some b` when the operand is an object (including arrays), `none`
when it is a primitive, where `in` throws a `TypeError`.  The real `in`
also finds prototype-inherited members (`objectProtoProps`,
`arrayProtoProps`), whose values are host functions outside the `Json`
data model; own-key membership coincides with `in` exactly for segments
outside those lists, and the path-walk characterization below is scoped
to such segments. -/
def jsHasProp (v : Json) (segment : String) : Option Bool :=
  match v with
  | .obj fs => some (fs.any (fun p => p.fst = segment))
  | .arr l =>
    some ((segment == "length") ||
      (match arrIndex segment with
       | some i => decide (i < l.length)
       | none => false))
  | _ => none

/-- JavaScript property read `v[segment]` on a `Json` value (`none` is
`undefined`).  Object reads take the last binding of a duplicated key,
as `JSON.parse` does.  Reads of prototype-inherited members yield host
functions outside the `Json` model and are mapped to `none`; this is
outcome-neutral under strict equality with a scalar literal (both are
unequal), and the walk characterization is scoped to segments that are
not prototype member names, where every successful membership test is
an own key and the read is fully modelled. -/
def jsGetProp (v : Json) (segment : String) : Option Json :=
  match v with
  | .obj fs => fs.reverse.lookup segment
  | .arr l =>
    if segment = "length" then some (.num l.length)
    else
      match arrIndex segment with
      | some i => l.get? i
      | none => none
  | .str s =>
    if segment = "length" then some (.num s.length)
    else
      match arrIndex segment with
      | some i => (s.toList.get? i).map (fun c => .str (String.mk [c]))
      | none => none
  | _ => none

/-- One iteration of the walk loop in `resolveJsonPath`: the
null/undefined guard, then `segment in current`, then the read. -/
def resolveStep (current : Option Json) (segment : String) : Except PathError (Option Json) :=
  match current with
  | none => .error (.notFound segment)
  | some .null => .error (.notFound segment)
  | some v =>
    match jsHasProp v segment with
    | none => .error (.typeError segment)
    | some false => .error (.notFound segment)
    | some true => .ok (jsGetProp v segment)

/-- Segment trimming and unquoting in `resolveJsonPath`. -/
def unquoteSegment (segment : String) : String :=
  let t := jsTrim segment
  if strStartsWith t "\"" ∧ strEndsWith t "\"" then strDropRight (strDrop t 1) 1 else t

/-- The segment list of a non-`.` path expression: strip the leading
dot, split on dots, drop empty pieces, trim and unquote each piece. -/
def pathSegments (trimmed : String) : List String :=
  ((splitOnChar '.' (strDrop trimmed 1)).filter (fun seg => seg.length > 0)).map unquoteSegment

/-- `resolveJsonPath` (src/index.ts). -/
def resolveJsonPath (jsonData : Json) (pathExpression : String) :
    Except PathError (Option Json) :=
  let trimmed := jsTrim pathExpression
  if trimmed = "." then .ok (some jsonData)
  else (pathSegments trimmed).foldlM resolveStep (some jsonData)

/-- The model of JavaScript `Number()` used by `parseLiteral`,
restricted to integral decimal literals (optionally signed); every other
numeric notation is treated as unparseable. -/
def jsNumber (s : String) : Option Int :=
  let (sign, ds) :=
    match s.toList with
    | '+' :: rest => ((1 : Int), rest)
    | '-' :: rest => ((-1 : Int), rest)
    | cs => ((1 : Int), cs)
  if ds ≠ [] ∧ ds.all Char.isDigit then some (sign * natFromDigits ds) else none

/-- `parseLiteral` (src/index.ts). -/
def parseLiteral (rawValue : String) : Except ExprError Json :=
  if rawValue = "true" then .ok (.bool true)
  else if rawValue = "false" then .ok (.bool false)
  else if rawValue = "null" then .ok .null
  else if strStartsWith rawValue "\"" ∧ strEndsWith rawValue "\"" then
    .ok (.str (strDropRight (strDrop rawValue 1) 1))
  else
    match jsNumber rawValue with
    | some n => .ok (.num n)
    | none => .error (.unsupportedLiteral rawValue)

def isWordChar (c : Char) : Bool :=
  c.isAlphanum ∨ c = '_'

/-- The condition regex of `evaluateSelectCondition`:
a dot, then the field name (word characters), then `==` between optional
whitespace, then the literal text, which the anchored dot-plus group
forces to be non-empty and free of line terminators. -/
def matchSelectCondition (condition : String) : Option (String × String) :=
  match condition.toList with
  | '.' :: rest =>
    let field := rest.takeWhile isWordChar
    if field.isEmpty then none
    else
      match (rest.dropWhile isWordChar).dropWhile Char.isWhitespace with
      | '=' :: '=' :: r3 =>
        let r4 := r3.dropWhile Char.isWhitespace
        if r4.isEmpty ∨ r4.any (fun c => c = '\n' ∨ c = '\r') then none
        else some (String.mk field, String.mk r4)
      | _ => none
  | _ => none

/-- JavaScript strict equality `v === lit` for a scalar `lit` (the only
values `parseLiteral` produces); `v` is a property read, so it may be
`undefined` (`none`), which is strictly equal to no scalar. -/
def jsStrictEq (v : Option Json) (lit : Json) : Bool :=
  match v, lit with
  | some .null, .null => true
  | some (.bool a), .bool b => a = b
  | some (.num a), .num b => a = b
  | some (.str a), .str b => a = b
  | _, _ => false

/-- `evaluateSelectCondition` (src/index.ts). -/
def evaluateSelectCondition (item : Json) (condition : String) : Except ExprError Bool :=
  match matchSelectCondition condition with
  | none => .error (.unsupportedCondition condition)
  | some (field, expectedRaw) =>
    match parseLiteral (jsTrim expectedRaw) with
    | .error e => .error e
    | .ok expectedValue => .ok (jsStrictEq (jsGetProp item field) expectedValue)

/-- `Array.isArray` on a possibly-`undefined` value. -/
def jsIsArray : Option Json → Bool
  | some (.arr _) => true
  | _ => false

/-- A non-null JavaScript primitive, on which the `in` operator throws. -/
def jsonIsScalar : Json → Bool
  | .bool _ => true
  | .num _ => true
  | .str _ => true
  | _ => false

/-- `Array.prototype.filter` with a predicate that can throw: elements
are tested left to right and the first thrown error aborts the stage. -/
def filterExcept (p : Json → Except ExprError Bool) : List Json → Except ExprError (List Json)
  | [] => .ok []
  | x :: xs =>
    match p x with
    | .error e => .error e
    | .ok b =>
      match filterExcept p xs with
      | .error e => .error e
      | .ok rest => .ok (if b then x :: rest else rest)

/-- `applyPipelineStage` (src/index.ts). -/
def applyPipelineStage (currentValue : Option Json) (stage : String) :
    Except ExprError (Option Json) :=
  if strStartsWith stage "map(" ∧ strEndsWith stage ")" then
    match currentValue with
    | some (.arr items) =>
      let inner := jsTrim (strDropRight (strDrop stage 4) 1)
      if strStartsWith inner "select(" ∧ strEndsWith inner ")" then
        let condition := jsTrim (strDropRight (strDrop inner 7) 1)
        (filterExcept (fun item => evaluateSelectCondition item condition) items).map
          (fun l => some (.arr l))
      else .error (.unsupportedStage stage)
    | _ => .error .arrayRequired
  else .error (.unsupportedStage stage)

/-- `applySimpleExpression` (src/index.ts): split on pipes, trim, drop
empties; the head must be a path expression starting with a dot; the
remaining stages are applied left to right. -/
def applySimpleExpression (jsonData : Json) (jqExpression : String) :
    Except ExprError (Option Json) :=
  let stages := ((splitOnChar '|' jqExpression).map jsTrim).filter (fun st => st ≠ "")
  match stages with
  | [] => .error (.unsupportedExpression jqExpression)
  | pathExpression :: pipeline =>
    if strStartsWith pathExpression "." then
      match resolveJsonPath jsonData pathExpression with
      | .error e => .error (.pathError e)
      | .ok result => pipeline.foldlM applyPipelineStage result
    else .error (.unsupportedExpression jqExpression)

/-! ### The External Query Adapter and the queried load -/

/-- The outcome of the external jq engine run, as observed by the catch
in `executeJsonQuery`: a JSON value on success, otherwise the error's
`code` property (`none` when the error is not an object carrying a
`code`). -/
inductive JqOutcome where
  | ok : Json → JqOutcome
  | err : Option String → JqOutcome

/-- Errors of the adapter and its fallback. -/
inductive QueryError where
  | externalError : Option String → QueryError
  | fileReadError : QueryError
  | documentParseError : QueryError
  | exprError : ExprError → QueryError
deriving Repr, DecidableEq

/-- `shouldFallbackToInternalParser` (src/index.ts): the error must be
an object with a `code` property equal to `ENOENT`. -/
def shouldFallbackToInternalEngine (code : Option String) : Bool :=
  match code with
  | some c => c = "ENOENT"
  | none => false

/-- `evaluateExpressionWithFallback` (src/index.ts): read the whole
document (`none` = unreadable), `JSON.parse` it, evaluate the
expression with the fallback engine. -/
def evaluateExpressionWithFallback (fileContent : Option String) (jqExpression : String) :
    Except QueryError (Option Json) :=
  match fileContent with
  | none => .error .fileReadError
  | some contents =>
    match jsonParse contents with
    | none => .error .documentParseError
    | some jsonData => (applySimpleExpression jsonData jqExpression).mapError .exprError

/-- `executeJsonQuery` (src/index.ts): try the external engine; on the
narrow executable-not-found condition fall back to the internal engine;
propagate every other error unchanged. -/
def executeJsonQuery (jqResult : JqOutcome) (fileContent : Option String)
    (jqExpression : String) : Except QueryError (Option Json) :=
  match jqResult with
  | .ok v => .ok (some v)
  | .err code =>
    if shouldFallbackToInternalEngine code then
      evaluateExpressionWithFallback fileContent jqExpression
    else .error (.externalError code)

/-- The failure cause of `loadJsonDataset`, wrapped by its catch into
the JSON-dataset-load error. -/
inductive JsonLoadError where
  | queryError : QueryError → JsonLoadError
  | notAnArray : JsonLoadError
deriving Repr, DecidableEq

/-- `loadJsonDataset` (src/index.ts): run the query, require an array
result, then commit via `resetState`; any failure aborts before any
state change. -/
def loadJsonDataset (s : DatasetProcessor) (filePath : String) (jqResult : JqOutcome)
    (fileContent : Option String) (jqExpression : String) :
    Except JsonLoadError Nat × DatasetProcessor :=
  match executeJsonQuery jqResult fileContent jqExpression with
  | .error e => (.error (.queryError e), s)
  | .ok result =>
    match result with
    | some (.arr records) => (.ok records.length, resetState s filePath records)
    | _ => (.error .notAnArray, s)

/-! ### The operation model

Each externally invocable operation of the engine as one step of a
transition system, for the cursor invariant and the result-accumulation
claims. -/

inductive Op where
  | loadLD : String → Option String → Op
  | loadJQ : String → JqOutcome → Option String → String → Op
  | next : Op
  | save : String → Op
  | statusOp : Op
  | hasMoreOp : Op
  | resetOp : Op
  | jump : Int → Op
  | exportOp : Op

/-- Whether an operation is one of the two loads. -/
def Op.isLoad : Op → Bool
  | .loadLD _ _ => true
  | .loadJQ _ _ _ _ => true
  | _ => false

/-- The text of a `save` operation. -/
def Op.saveText : Op → Option String
  | .save t => some t
  | _ => none

/-- The state after one operation (read-only operations keep the state). -/
def step (s : DatasetProcessor) : Op → DatasetProcessor
  | .loadLD p c => (loadDataset s p c).2
  | .loadJQ p r c e => (loadJsonDataset s p r c e).2
  | .next => (getNextRecord s).2
  | .save t => saveResult s t
  | .statusOp => s
  | .hasMoreOp => s
  | .resetOp => resetToStart s
  | .jump i => (jumpToRecord s i).2
  | .exportOp => (exportResults s).2

/-- The state after a sequence of operations. -/
def run (s : DatasetProcessor) (ops : List Op) : DatasetProcessor :=
  ops.foldl step s

/-- The cursor invariant of the engine. -/
def Inv (s : DatasetProcessor) : Prop :=
  0 ≤ s.currentIndex ∧ s.currentIndex ≤ s.records.length

instance (s : DatasetProcessor) : Decidable (Inv s) := by
  unfold Inv; infer_instance

/-- A sample loaded state (two records, cursor at the start) used to
instantiate the theorems at concrete inputs. -/
def sampleState : DatasetProcessor :=
  { currentDataset := some "data.jsonl", currentIndex := 0,
    records := [Json.obj [("id", Json.num 1)], Json.obj [("id", Json.num 2)]],
    processingResults := [] }

/-- The document of the `.users` filtering example. -/
def usersDoc : Json :=
  .obj [("users", .arr
    [ .obj [("id", .num 1), ("active", .bool true)],
      .obj [("id", .num 2), ("active", .bool false)] ])]

/-- The five-line line-delimited input of the load example: two records
around an unparseable word and an unparseable brace line. -/
def exampleLines : String :=
  "\x7b\"id\":1\x7d\ninvalid\n\x7b\"id\":2\x7d\n\x7bbad\x7d\n\x7b\"id\":3\x7d"

/-- The state after loading the example input. -/
def exampleLoaded : DatasetProcessor :=
  (loadDataset initState "data.jsonl" (some exampleLines)).2

/-- The example state after `k` further `next()` calls. -/
def exampleAfter (k : Nat) : DatasetProcessor :=
  run exampleLoaded (List.replicate k .next)

/-- A sample non-load operation sequence: one fetch, two saves, one
export. -/
def sampleOps : List Op :=
  [Op.next, Op.save "a", Op.save "b", Op.exportOp]

/-! ## Theorems -/

theorem run_nil (s : DatasetProcessor) : run s [] = s := rfl

theorem run_cons (s : DatasetProcessor) (op : Op) (ops : List Op) :
    run s (op :: ops) = run (step s op) ops := rfl

/-- Iterating `next` `k` times from a state whose cursor has room for
`k` more records advances the cursor by exactly `k`. -/
theorem run_next_replicate (k : Nat) :
    ∀ s : DatasetProcessor, 0 ≤ s.currentIndex →
      s.currentIndex + k ≤ s.records.length →
      run s (List.replicate k .next) = { s with currentIndex := s.currentIndex + k } := by
  induction k with
  | zero =>
    intro s _ _
    simp [run]
  | succ n ih =>
    intro s h0 h1
    have hlt : s.currentIndex < (s.records.length : Int) := by
      have : (0 : Int) < (n : Int) + 1 := by positivity
      push_cast at h1 ⊢
      omega
    have hstep : step s .next = { s with currentIndex := s.currentIndex + 1 } := by
      simp only [step, getNextRecord, not_le.mpr hlt, if_false]
    rw [List.replicate_succ, run_cons, hstep]
    have h1' : ({ s with currentIndex := s.currentIndex + 1 } :
        DatasetProcessor).currentIndex + (n : Int) ≤
        ({ s with currentIndex := s.currentIndex + 1 } : DatasetProcessor).records.length := by
      show s.currentIndex + 1 + (n : Int) ≤ (s.records.length : Int)
      push_cast at h1
      omega
    rw [ih _ (by show (0:Int) ≤ s.currentIndex + 1; omega) h1']
    have : s.currentIndex + 1 + (n : Int) = s.currentIndex + ((n : Nat) + 1 : Nat) := by
      push_cast
      ring
    simp [this]

/-- The progress template renders as the decimal number, a slash, and
the decimal total. -/
theorem progressString_eq (n : Int) (t : Nat) :
    progressString n t = toString n ++ "/" ++ toString t := by
  show ("" : String) ++ toString n ++ "/" ++ toString t ++ "" = _
  rw [String.empty_append, String.append_empty]

/-- `next()` on a non-empty dataset with the cursor at 0 yields the
head record as record number 1. -/
theorem getNextRecord_zero (s : DatasetProcessor) (hc : s.currentIndex = 0)
    (hne : s.records ≠ []) :
    (getNextRecord s).1 =
      some { record_number := 1, total_records := s.records.length,
             record := s.records.head?, progress := progressString 1 s.records.length } := by
  have hlen : 0 < s.records.length := List.length_pos.mpr hne
  have hge : ¬ s.currentIndex ≥ (s.records.length : Int) := by
    rw [hc]
    omega
  simp only [getNextRecord, hge, if_false]
  rw [hc]
  simp [listGetJS, List.head?_eq_getElem?]

/-- C1: with the cursor invariant in force, `next()` at the exhausted
position returns empty and changes nothing; otherwise it returns the
view of the cursor's record — 1-based number `c+1`, the total, the
`c`-th record, progress `c+1/total` — and increments the cursor; and
from a freshly loaded state (cursor 0) the `n`-th call yields
`record_number = n`. -/
theorem getNextRecord_spec (s : DatasetProcessor) (h : Inv s) :
    (s.currentIndex = s.records.length → getNextRecord s = (none, s)) ∧
    (s.currentIndex < s.records.length →
      getNextRecord s =
        (some { record_number := s.currentIndex + 1,
                total_records := s.records.length,
                record := s.records.get? s.currentIndex.toNat,
                progress := progressString (s.currentIndex + 1) s.records.length },
         { s with currentIndex := s.currentIndex + 1 })) ∧
    (∀ n : Int, progressString n s.records.length =
      toString n ++ "/" ++ toString s.records.length) ∧
    (∀ n : Nat, s.currentIndex = 0 → 1 ≤ n → n ≤ s.records.length →
      ((getNextRecord (run s (List.replicate (n - 1) .next))).1).map
        RecordData.record_number = some n) := by
  refine ⟨?_, ?_, ?_, ?_⟩
  · intro he
    simp [getNextRecord, he]
  · intro hlt
    have hge : ¬ s.currentIndex ≥ (s.records.length : Int) := not_le.mpr hlt
    simp only [getNextRecord, hge, if_false]
    have : listGetJS s.records s.currentIndex = s.records.get? s.currentIndex.toNat := by
      simp [listGetJS, not_lt.mpr h.1]
    rw [this]
  · intro n
    exact progressString_eq n s.records.length
  · intro n hc h1 hn
    have hrun : run s (List.replicate (n - 1) .next) =
        { s with currentIndex := s.currentIndex + (n - 1 : Nat) } := by
      refine run_next_replicate (n - 1) s h.1 ?_
      rw [hc]
      omega
    rw [hrun]
    have hge : ¬ ({ s with currentIndex := s.currentIndex + (n - 1 : Nat) } :
        DatasetProcessor).currentIndex ≥
        (({ s with currentIndex := s.currentIndex + (n - 1 : Nat) } :
          DatasetProcessor).records.length : Int) := by
      show ¬ s.currentIndex + ((n - 1 : Nat) : Int) ≥ (s.records.length : Int)
      rw [hc]
      omega
    simp only [getNextRecord, hge, if_false, Option.map_some]
    show some (s.currentIndex + ((n - 1 : Nat) : Int) + 1) = some (n : Int)
    rw [hc]
    congr 1
    omega

/-- Witness for C1 at a concrete two-record state. -/
theorem getNextRecord_spec_witness :
    (sampleState.currentIndex = sampleState.records.length →
      getNextRecord sampleState = (none, sampleState)) ∧
    (sampleState.currentIndex < sampleState.records.length →
      getNextRecord sampleState =
        (some { record_number := sampleState.currentIndex + 1,
                total_records := sampleState.records.length,
                record := sampleState.records.get? sampleState.currentIndex.toNat,
                progress := progressString (sampleState.currentIndex + 1)
                  sampleState.records.length },
         { sampleState with currentIndex := sampleState.currentIndex + 1 })) ∧
    (∀ n : Int, progressString n sampleState.records.length =
      toString n ++ "/" ++ toString sampleState.records.length) ∧
    (∀ n : Nat, sampleState.currentIndex = 0 → 1 ≤ n → n ≤ sampleState.records.length →
      ((getNextRecord (run sampleState (List.replicate (n - 1) .next))).1).map
        RecordData.record_number = some n) :=
  getNextRecord_spec sampleState (by decide)

/-- C3: `jumpTo(i)` succeeds exactly on `0 ≤ i < total`, setting the
cursor to `i` (after which `next()` reports `record_number = i + 1`),
and otherwise returns false leaving the state unchanged. -/
theorem jumpToRecord_spec (s : DatasetProcessor) (i : Int) :
    (0 ≤ i ∧ i < s.records.length →
      jumpToRecord s i = (true, { s with currentIndex := i }) ∧
      ((getNextRecord (jumpToRecord s i).2).1).map RecordData.record_number = some (i + 1)) ∧
    (¬ (0 ≤ i ∧ i < s.records.length) → jumpToRecord s i = (false, s)) := by
  constructor
  · intro hin
    have hj : jumpToRecord s i = (true, { s with currentIndex := i }) := by
      simp only [jumpToRecord]
      rw [if_pos ⟨hin.1, hin.2⟩]
    refine ⟨hj, ?_⟩
    rw [hj]
    have hge : ¬ ({ s with currentIndex := i } : DatasetProcessor).currentIndex ≥
        (({ s with currentIndex := i } : DatasetProcessor).records.length : Int) :=
      not_le.mpr hin.2
    simp only [getNextRecord, hge, if_false, Option.map_some]
    rfl
  · intro hout
    simp only [jumpToRecord]
    rw [if_neg ?_]
    intro hc
    exact hout ⟨hc.1, hc.2⟩

/-- Witness for C3: jumping to index 1 of the two-record sample. -/
theorem jumpToRecord_spec_witness :
    jumpToRecord sampleState 1 = (true, { sampleState with currentIndex := 1 }) ∧
    ((getNextRecord (jumpToRecord sampleState 1).2).1).map RecordData.record_number =
      some 2 :=
  (jumpToRecord_spec sampleState 1).1 (by decide)

/-- C9: `reset()` only zeroes the cursor — records, source, total and
results are untouched — and the following `next()` returns the first
record. -/
theorem resetToStart_spec (s : DatasetProcessor) :
    resetToStart s = { s with currentIndex := 0 } ∧
    (resetToStart s).records = s.records ∧
    (resetToStart s).currentDataset = s.currentDataset ∧
    (getProcessingStatus (resetToStart s)).total_records = s.records.length ∧
    (resetToStart s).processingResults = s.processingResults ∧
    (s.records ≠ [] →
      ∃ rd, (getNextRecord (resetToStart s)).1 = some rd ∧
        rd.record_number = 1 ∧ rd.record = s.records.head?) := by
  refine ⟨rfl, rfl, rfl, rfl, rfl, ?_⟩
  intro hne
  have hnext := getNextRecord_zero (resetToStart s) rfl hne
  exact ⟨_, hnext, rfl, rfl⟩

/-- Witness for C9 at the two-record sample state. -/
theorem resetToStart_spec_witness :
    ∃ rd, (getNextRecord (resetToStart sampleState)).1 = some rd ∧
      rd.record_number = 1 ∧ rd.record = sampleState.records.head? :=
  (resetToStart_spec sampleState).2.2.2.2.2 (List.cons_ne_nil _ _)

/-- C2: both loads are all-or-nothing.  A failing load (unreadable
source, failing query, non-array query result) leaves the whole state
exactly as it was; a successful line-delimited load replaces the
records with the parsed lines and a successful queried load with the
query's array, in both cases setting the cursor to 0, clearing the
results, and recording the source path. -/
theorem load_atomic (s : DatasetProcessor) (path : String) (content : Option String)
    (jqRes : JqOutcome) (qContent : Option String) (expr : String) :
    (∀ e, (loadDataset s path content).1 = .error e → (loadDataset s path content).2 = s) ∧
    (∀ c, content = some c →
      loadDataset s path content =
        (.ok (parseLines c).length, resetState s path (parseLines c))) ∧
    (∀ e, (loadJsonDataset s path jqRes qContent expr).1 = .error e →
      (loadJsonDataset s path jqRes qContent expr).2 = s) ∧
    (∀ recs, executeJsonQuery jqRes qContent expr = .ok (some (.arr recs)) →
      loadJsonDataset s path jqRes qContent expr = (.ok recs.length, resetState s path recs)) ∧
    (∀ recs, resetState s path recs =
      { currentDataset := some path, currentIndex := 0,
        records := recs, processingResults := [] }) := by
  refine ⟨?_, ?_, ?_, ?_, fun recs => rfl⟩
  · intro e he
    cases content with
    | none => rfl
    | some c => simp [loadDataset] at he
  · intro c hc
    subst hc
    rfl
  · intro e he
    unfold loadJsonDataset at he ⊢
    cases hq : executeJsonQuery jqRes qContent expr with
    | error e2 => rfl
    | ok r =>
      rw [hq] at he
      rcases r with _ | v
      · rfl
      · cases v with
        | arr recs => simp at he
        | null => rfl
        | bool b => rfl
        | num m => rfl
        | str st => rfl
        | obj fs => rfl
  · intro recs hq
    unfold loadJsonDataset
    rw [hq]

/-- Witness for C2: a failed line-delimited load on an unreadable source
and a failed queried load (non-ENOENT external error) leave the sample
state untouched. -/
theorem load_atomic_witness :
    (loadDataset sampleState "x.jsonl" none).2 = sampleState ∧
    (loadJsonDataset sampleState "x.json" (.err none) none ".items").2 = sampleState :=
  ⟨(load_atomic sampleState "x.jsonl" none (.err none) none ".items").1 _ rfl,
   (load_atomic sampleState "x.jsonl" none (.err none) none ".items").2.2.1 _ rfl⟩

/-- C4: the External Query Adapter falls back to the internal expression
engine exactly when the external engine's error carries the code
`ENOENT` (executable not found); every other failure propagates
unchanged, and successes are returned as-is. -/
theorem executeJsonQuery_fallback (code : Option String) (fileContent : Option String)
    (expr : String) (v : Json) :
    executeJsonQuery (.ok v) fileContent expr = .ok (some v) ∧
    (shouldFallbackToInternalEngine code = true ↔ code = some "ENOENT") ∧
    (code = some "ENOENT" →
      executeJsonQuery (.err code) fileContent expr =
        evaluateExpressionWithFallback fileContent expr) ∧
    (code ≠ some "ENOENT" →
      executeJsonQuery (.err code) fileContent expr = .error (.externalError code)) := by
  refine ⟨rfl, ?_, ?_, ?_⟩
  · cases code with
    | none => simp [shouldFallbackToInternalEngine]
    | some c => simp [shouldFallbackToInternalEngine]
  · intro h
    subst h
    rfl
  · intro h
    have hf : shouldFallbackToInternalEngine code = false := by
      cases code with
      | none => rfl
      | some c =>
        simp only [shouldFallbackToInternalEngine, decide_eq_false_iff_not]
        intro hc
        exact h (by rw [hc])
    simp [executeJsonQuery, hf]

/-- Witness for C4: a missing-executable error falls back, a permission
error propagates. -/
theorem executeJsonQuery_fallback_witness :
    (executeJsonQuery (.err (some "ENOENT")) none ".items" =
      evaluateExpressionWithFallback none ".items") ∧
    (executeJsonQuery (.err (some "EACCES")) none ".items" =
      .error (.externalError (some "EACCES"))) :=
  ⟨(executeJsonQuery_fallback (some "ENOENT") none ".items" .null).2.2.1 rfl,
   (executeJsonQuery_fallback (some "EACCES") none ".items" .null).2.2.2 (by decide)⟩

/-- A filter-then-filterMap has as many elements as the lines passing
both the filter and the parse. -/
theorem length_filterMap_filter {α β : Type} (p : α → Bool) (f : α → Option β)
    (l : List α) :
    ((l.filter p).filterMap f).length =
      (l.filter (fun x => p x && (f x).isSome)).length := by
  induction l with
  | nil => rfl
  | cons x xs ih =>
    by_cases hp : p x = true
    · cases hf : f x <;>
        simp [List.filter_cons, List.filterMap_cons, hp, hf, ih]
    · simp [List.filter_cons, hp, ih]

/-- C6: the count returned by a successful line-delimited load is
exactly the number of non-blank (after trimming) lines that parse as
JSON — unparseable lines are skipped without failing the load — and on
the five-line example input the load yields 3 records whose ids are
1, 2, 3 under successive `next()` calls, followed by empty. -/
theorem loadDataset_count (s : DatasetProcessor) (path : String) (content : String) :
    (loadDataset s path (some content)).1 =
      .ok ((splitOnChar '\n' content).filter
        (fun l => decide (jsTrim l ≠ "") && (jsonParse l).isSome)).length ∧
    (loadDataset initState "data.jsonl" (some exampleLines)).1 = .ok 3 ∧
    exampleLoaded.records =
      [Json.obj [("id", Json.num 1)], Json.obj [("id", Json.num 2)],
       Json.obj [("id", Json.num 3)]] ∧
    ((getNextRecord (exampleAfter 0)).1).bind RecordData.record =
      some (Json.obj [("id", Json.num 1)]) ∧
    ((getNextRecord (exampleAfter 1)).1).bind RecordData.record =
      some (Json.obj [("id", Json.num 2)]) ∧
    ((getNextRecord (exampleAfter 2)).1).bind RecordData.record =
      some (Json.obj [("id", Json.num 3)]) ∧
    (getNextRecord (exampleAfter 3)).1 = none := by
  refine ⟨?_, rfl, rfl, rfl, rfl, rfl, rfl⟩
  show Except.ok (parseLines content).length = _
  unfold parseLines
  exact congrArg Except.ok (length_filterMap_filter _ _ _)

/-- A non-load operation leaves `processingResults` unchanged, except
`save`, which appends its single entry. -/
theorem step_processingResults (s : DatasetProcessor) (op : Op) (h : op.isLoad = false) :
    (step s op).processingResults =
      s.processingResults ++
        (op.saveText.map (fun t =>
          ({ record_index := s.currentIndex - 1, result := t } : ProcessingResult))).toList := by
  cases op with
  | loadLD p c => simp [Op.isLoad] at h
  | loadJQ p r c e => simp [Op.isLoad] at h
  | next =>
    show (getNextRecord s).2.processingResults = _
    unfold getNextRecord
    split <;> simp [Op.saveText]
  | save t => simp [step, saveResult, Op.saveText]
  | statusOp => simp [step, Op.saveText]
  | hasMoreOp => simp [step, Op.saveText]
  | resetOp => simp [step, resetToStart, Op.saveText]
  | jump i =>
    show (jumpToRecord s i).2.processingResults = _
    unfold jumpToRecord
    split <;> simp [Op.saveText]
  | exportOp => simp [step, exportResults, Op.saveText]

/-- Over a load-free operation sequence the result texts accumulate in
call order. -/
theorem run_results (ops : List Op) :
    ∀ s : DatasetProcessor, (∀ op ∈ ops, op.isLoad = false) →
      (run s ops).processingResults.map ProcessingResult.result =
        s.processingResults.map ProcessingResult.result ++ ops.filterMap Op.saveText := by
  induction ops with
  | nil =>
    intro s _
    simp [run]
  | cons op rest ih =>
    intro s h
    rw [run_cons, ih (step s op) (fun o ho => h o (List.mem_cons_of_mem _ ho)),
        step_processingResults s op (h op (List.mem_cons_self _ _))]
    cases hopt : op.saveText with
    | none => simp [List.filterMap_cons, hopt]
    | some t => simp [List.filterMap_cons, hopt]

/-- C7: `saveResult` appends exactly the entry `(cursor - 1, text)`;
over any load-free operation sequence the saved texts accumulate in
call order; `exportResults` emits exactly the accumulated entries and
modifies nothing; starting from empty results the exported array length
equals the number of saves. -/
theorem results_accumulate (s : DatasetProcessor) (ops : List Op) (t : String)
    (h : ∀ op ∈ ops, op.isLoad = false) :
    saveResult s t = { s with processingResults :=
      s.processingResults ++ [{ record_index := s.currentIndex - 1, result := t }] } ∧
    (run s ops).processingResults.map ProcessingResult.result =
      s.processingResults.map ProcessingResult.result ++ ops.filterMap Op.saveText ∧
    exportResults (run s ops) = ((run s ops).processingResults, run s ops) ∧
    (s.processingResults = [] →
      (exportResults (run s ops)).1.length = (ops.filterMap Op.saveText).length) := by
  refine ⟨rfl, run_results ops s h, rfl, ?_⟩
  intro hemp
  have hm := run_results ops s h
  rw [hemp] at hm
  simp only [List.map_nil, List.nil_append] at hm
  have : (run s ops).processingResults.length =
      ((run s ops).processingResults.map ProcessingResult.result).length := by
    simp
  rw [show (exportResults (run s ops)).1 = (run s ops).processingResults from rfl,
      this, hm]

/-- Witness for C7 on the sample state and the fetch-save-save-export
sequence. -/
theorem results_accumulate_witness :
    saveResult sampleState "x" = { sampleState with processingResults :=
      sampleState.processingResults ++
        [{ record_index := sampleState.currentIndex - 1, result := "x" }] } ∧
    (run sampleState sampleOps).processingResults.map ProcessingResult.result =
      sampleState.processingResults.map ProcessingResult.result ++
        sampleOps.filterMap Op.saveText ∧
    exportResults (run sampleState sampleOps) =
      ((run sampleState sampleOps).processingResults, run sampleState sampleOps) ∧
    (sampleState.processingResults = [] →
      (exportResults (run sampleState sampleOps)).1.length =
        (sampleOps.filterMap Op.saveText).length) :=
  results_accumulate sampleState sampleOps "x" (by decide)

/-- Every single operation preserves the cursor invariant. -/
theorem step_inv (s : DatasetProcessor) (op : Op) (h : Inv s) : Inv (step s op) := by
  cases op with
  | loadLD p c =>
    cases c with
    | none => exact h
    | some cc => exact ⟨le_refl 0, Int.natCast_nonneg _⟩
  | loadJQ p r c e =>
    show Inv (loadJsonDataset s p r c e).2
    unfold loadJsonDataset
    cases hq : executeJsonQuery r c e with
    | error e2 => exact h
    | ok res =>
      rcases res with _ | v
      · exact h
      · cases v with
        | arr recs => exact ⟨le_refl 0, Int.natCast_nonneg _⟩
        | null => exact h
        | bool b => exact h
        | num m => exact h
        | str st => exact h
        | obj fs => exact h
  | next =>
    show Inv (getNextRecord s).2
    unfold getNextRecord
    by_cases hc : s.currentIndex ≥ (s.records.length : Int)
    · rw [if_pos hc]
      exact h
    · rw [if_neg hc]
      refine ⟨?_, ?_⟩
      · show (0 : Int) ≤ s.currentIndex + 1
        have := h.1
        omega
      · show s.currentIndex + 1 ≤ (s.records.length : Int)
        omega
  | save t => exact h
  | statusOp => exact h
  | hasMoreOp => exact h
  | resetOp => exact ⟨le_refl 0, Int.natCast_nonneg _⟩
  | jump i =>
    show Inv (jumpToRecord s i).2
    unfold jumpToRecord
    by_cases hc : i ≥ 0 ∧ i < (s.records.length : Int)
    · rw [if_pos hc]
      exact ⟨hc.1, le_of_lt hc.2⟩
    · rw [if_neg hc]
      exact h
  | exportOp => exact h

/-- The cursor invariant is preserved by any operation sequence. -/
theorem run_inv (ops : List Op) : ∀ s, Inv s → Inv (run s ops) := by
  induction ops with
  | nil =>
    intro s h
    exact h
  | cons op rest ih =>
    intro s h
    exact ih _ (step_inv s op h)

/-- Under the invariant, whenever `next()` returns a view, its record
field really holds a record (the read is in bounds). -/
theorem getNextRecord_isSome (s : DatasetProcessor) (h : Inv s) :
    ∀ rd, (getNextRecord s).1 = some rd → rd.record.isSome = true := by
  intro rd hrd
  unfold getNextRecord at hrd
  by_cases hc : s.currentIndex ≥ (s.records.length : Int)
  · rw [if_pos hc] at hrd
    cases hrd
  · rw [if_neg hc] at hrd
    have hx := Option.some.inj hrd
    rw [← hx]
    show (listGetJS s.records s.currentIndex).isSome = true
    have h0 := h.1
    rw [listGetJS, if_neg (not_lt.mpr h0)]
    have hlt : s.currentIndex.toNat < s.records.length := by omega
    rw [List.get?_eq_getElem?, List.getElem?_eq_getElem hlt]
    rfl

/-- C10: the invariant `0 ≤ cursor ≤ record count` holds in the initial
state and is preserved by every operation sequence; consequently the
status `remaining` field is never negative and `next()` never reads a
record out of bounds. -/
theorem cursor_invariant (s : DatasetProcessor) (ops : List Op) (h : Inv s) :
    Inv initState ∧ Inv (run s ops) ∧
    0 ≤ (getProcessingStatus (run s ops)).remaining ∧
    ∀ rd, (getNextRecord (run s ops)).1 = some rd → rd.record.isSome = true := by
  have hr := run_inv ops s h
  refine ⟨by decide, hr, ?_, getNextRecord_isSome _ hr⟩
  show (0 : Int) ≤ ((run s ops).records.length : Int) - (run s ops).currentIndex
  have := hr.2
  omega

/-- Witness for C10 starting at the initial state through a mixed
operation sequence. -/
theorem cursor_invariant_witness :
    Inv initState ∧
    Inv (run initState [Op.jump 5, Op.next, Op.resetOp, Op.save "r", Op.next]) ∧
    0 ≤ (getProcessingStatus
      (run initState [Op.jump 5, Op.next, Op.resetOp, Op.save "r", Op.next])).remaining ∧
    ∀ rd, (getNextRecord
      (run initState [Op.jump 5, Op.next, Op.resetOp, Op.save "r", Op.next])).1 = some rd →
        rd.record.isSome = true :=
  cursor_invariant initState [Op.jump 5, Op.next, Op.resetOp, Op.save "r", Op.next]
    (by decide)

/-- When the select condition matches the equality grammar and its
literal parses, the stage's filter never throws and keeps exactly the
elements whose field strictly equals the literal. -/
theorem filterExcept_eq (cond field raw : String) (lit : Json)
    (hm : matchSelectCondition cond = some (field, raw))
    (hl : parseLiteral (jsTrim raw) = .ok lit) :
    ∀ items : List Json,
      filterExcept (fun item => evaluateSelectCondition item cond) items =
        .ok (items.filter (fun item => jsStrictEq (jsGetProp item field) lit)) := by
  have hev : ∀ item : Json, evaluateSelectCondition item cond =
      .ok (jsStrictEq (jsGetProp item field) lit) := by
    intro item
    unfold evaluateSelectCondition
    rw [hm]
    dsimp only
    rw [hl]
  intro items
  induction items with
  | nil => rfl
  | cons x xs ih =>
    simp only [filterExcept]
    rw [hev x, ih]
    dsimp only
    by_cases hb : jsStrictEq (jsGetProp x field) lit = true <;>
      simp [hb, List.filter_cons]

/-- C5: a `map(select(.field == literal))` stage requires an array
input (failing with the array-required error on anything else) and on
an array keeps, in order, exactly the elements whose field is strictly
equal to the parsed literal; in particular
`.users | map(select(.active == true))` on the two-user document
yields only the active user. -/
theorem map_select_spec (stage : String) (v : Option Json) (field raw : String) (lit : Json)
    (h1 : strStartsWith stage "map(" = true)
    (h2 : strEndsWith stage ")" = true)
    (h3 : strStartsWith (jsTrim (strDropRight (strDrop stage 4) 1)) "select(" = true)
    (h4 : strEndsWith (jsTrim (strDropRight (strDrop stage 4) 1)) ")" = true)
    (h5 : matchSelectCondition
      (jsTrim (strDropRight (strDrop (jsTrim (strDropRight (strDrop stage 4) 1)) 7) 1)) =
        some (field, raw))
    (h6 : parseLiteral (jsTrim raw) = .ok lit) :
    (jsIsArray v = false → applyPipelineStage v stage = .error .arrayRequired) ∧
    (∀ items, v = some (.arr items) →
      applyPipelineStage v stage =
        .ok (some (.arr (items.filter (fun item => jsStrictEq (jsGetProp item field) lit))))) ∧
    applySimpleExpression usersDoc ".users | map(select(.active == true))" =
      .ok (some (.arr [.obj [("id", .num 1), ("active", .bool true)]])) := by
  refine ⟨?_, ?_, rfl⟩
  · intro hna
    unfold applyPipelineStage
    rw [if_pos ⟨h1, h2⟩]
    rcases v with _ | w
    · rfl
    · cases w with
      | arr items => simp [jsIsArray] at hna
      | null => rfl
      | bool b => rfl
      | num m => rfl
      | str st => rfl
      | obj fs => rfl
  · intro items hv
    subst hv
    unfold applyPipelineStage
    rw [if_pos ⟨h1, h2⟩]
    show (if strStartsWith (jsTrim (strDropRight (strDrop stage 4) 1)) "select(" = true ∧
        strEndsWith (jsTrim (strDropRight (strDrop stage 4) 1)) ")" = true then
        Except.map (fun l => some (Json.arr l))
          (filterExcept (fun item => evaluateSelectCondition item
            (jsTrim (strDropRight (strDrop (jsTrim (strDropRight (strDrop stage 4) 1)) 7) 1)))
            items)
      else Except.error (ExprError.unsupportedStage stage)) =
      Except.ok (some (Json.arr
        (items.filter (fun item => jsStrictEq (jsGetProp item field) lit))))
    rw [if_pos ⟨h3, h4⟩, filterExcept_eq _ _ _ _ h5 h6 items]
    rfl

/-- Witness for C5: the example stage applied to the two-user array. -/
theorem map_select_spec_witness :
    applyPipelineStage
      (some (.arr [.obj [("id", .num 1), ("active", .bool true)],
                   .obj [("id", .num 2), ("active", .bool false)]]))
      "map(select(.active == true))" =
      .ok (some (.arr [.obj [("id", .num 1), ("active", .bool true)]])) :=
  (map_select_spec "map(select(.active == true))"
    (some (.arr [.obj [("id", .num 1), ("active", .bool true)],
                 .obj [("id", .num 2), ("active", .bool false)]]))
    "active" "true" (.bool true) rfl rfl rfl rfl rfl rfl).2.1 _ rfl

/-- C8 (amended): for a segment that is not a prototype-inherited
member name (a name, such as `toString` or `push`, that the `in`
operator finds on every object or array, making the walk continue into
a host value instead of failing), one walk step fails with the
path-segment-not-found error exactly when the current value is
undefined or null, or is an object or array without the segment among
its keys; it fails with the in-operator's TypeError exactly when the
current value is a non-null scalar; a non-`.` path resolution is the
fold of these steps; its only failure forms are these two; and
`objectProtoProps` is contained in `arrayProtoProps`, so the single
proviso covers both shapes. -/
theorem resolveStep_spec (cur : Option Json) (seg : String)
    (_hseg : seg ∉ arrayProtoProps) :
    (resolveStep cur seg = .error (.notFound seg) ↔
      cur = none ∨ cur = some .null ∨
        ∃ v, cur = some v ∧ jsonIsScalar v = false ∧ jsHasProp v seg = some false) ∧
    (resolveStep cur seg = .error (.typeError seg) ↔
      ∃ v, cur = some v ∧ jsonIsScalar v = true) ∧
    (∀ (doc : Json) (path : String), jsTrim path ≠ "." →
      resolveJsonPath doc path = (pathSegments (jsTrim path)).foldlM resolveStep (some doc)) ∧
    (∀ (doc : Json) (path : String) (e : PathError), resolveJsonPath doc path = .error e →
      (∃ sg, e = .notFound sg) ∨ ∃ sg, e = .typeError sg) ∧
    (∀ p ∈ objectProtoProps, p ∈ arrayProtoProps) := by
  refine ⟨?_, ?_, ?_, ?_, by decide⟩
  · rcases cur with _ | v
    · simp [resolveStep]
    · cases v with
      | null => simp [resolveStep, jsonIsScalar]
      | bool b => simp [resolveStep, jsHasProp, jsonIsScalar]
      | num m => simp [resolveStep, jsHasProp, jsonIsScalar]
      | str st => simp [resolveStep, jsHasProp, jsonIsScalar]
      | arr l =>
        rcases hb : jsHasProp (Json.arr l) seg with _ | b
        · simp [jsHasProp] at hb
        · cases b <;> simp [resolveStep, hb, jsonIsScalar]
      | obj fs =>
        rcases hb : jsHasProp (Json.obj fs) seg with _ | b
        · simp [jsHasProp] at hb
        · cases b <;> simp [resolveStep, hb, jsonIsScalar]
  · rcases cur with _ | v
    · simp [resolveStep]
    · cases v with
      | null => simp [resolveStep, jsonIsScalar]
      | bool b => simp [resolveStep, jsHasProp, jsonIsScalar]
      | num m => simp [resolveStep, jsHasProp, jsonIsScalar]
      | str st => simp [resolveStep, jsHasProp, jsonIsScalar]
      | arr l =>
        rcases hb : jsHasProp (Json.arr l) seg with _ | b
        · simp [jsHasProp] at hb
        · cases b <;> simp [resolveStep, hb, jsonIsScalar]
      | obj fs =>
        rcases hb : jsHasProp (Json.obj fs) seg with _ | b
        · simp [jsHasProp] at hb
        · cases b <;> simp [resolveStep, hb, jsonIsScalar]
  · intro doc path hne
    unfold resolveJsonPath
    rw [if_neg hne]
  · intro doc path e _
    cases e with
    | notFound sg => exact Or.inl ⟨sg, rfl⟩
    | typeError sg => exact Or.inr ⟨sg, rfl⟩

/-- Witness for C8 at a scalar current value and a non-prototype
segment name. -/
theorem resolveStep_spec_witness :
    resolveStep (some (Json.num 5)) "b" = .error (.typeError "b") :=
  ((resolveStep_spec (some (Json.num 5)) "b" (by decide)).2.1).mpr ⟨Json.num 5, rfl, rfl⟩

/-- C8 counterexample: resolving `.a.b` on the document where `.a` is
the scalar 5 fails with the in-operator TypeError, not with the
path-segment-not-found error the claim prescribes for non-indexable
values. -/
theorem resolveJsonPath_scalar_counterexample :
    resolveJsonPath (Json.obj [("a", Json.num 5)]) ".a.b" = .error (.typeError "b") ∧
    ∀ sg, resolveJsonPath (Json.obj [("a", Json.num 5)]) ".a.b" ≠ .error (.notFound sg) := by
  refine ⟨rfl, ?_⟩
  intro sg h
  have h2 := (show resolveJsonPath (Json.obj [("a", Json.num 5)]) ".a.b" =
      .error (.typeError "b") from rfl).symm.trans h
  exact PathError.noConfusion (Except.error.inj h2)

end IteratorMcp
